import Mathlib

/-!
Verification of the vncfreethumb repository (a small VNC / RFB server that
displays croppable image thumbnails).

The development shallowly embeds the Go sources:
  * `src/rfb/image.go`    — pixel packing/unpacking between 8-bit RGBA and an
    arbitrary wire `PixelFormat` (`CopyFromRGBA`, `CopyToRGBA`,
    `PixelFormatColor.RGBA`, `NewPixelFormatImage`, `idx`);
  * `rfb.go` (in `src/unnamed/part_000`) — RFB message codecs
    (`ProtocolVersionMessage`, `SetPixelFormatMessage`, `PixelFormat.Read`);
  * `src/cmd/server/main.go` — the handshake prefix of `rfbServe` and the
    `SetPixelFormat` case of the session loop;
  * the ui file (first part of `src/unnamed/part_000`, the revision matching
    the README: keyboard folds, fold bars, skip-on-decode-failure `NewUI`) —
    `ScreenRect`, `ScreenToWindow`, `WindowToScreen`, `moveToFront`, the
    crop-select release closure of `defaultEventHandler`, and `NewUI`.

Machine integers are modelled as `Nat` with explicit `% 2 ^ w` where Go
truncates (uint32 arithmetic, `uint8`/`uint16` conversions).  Go `float64`
values that only ever hold small integers and exact halves are modelled as
`ℚ`; Go `int(x)` conversion (truncation toward zero) is `qtrunc`.  Code that
panics at runtime (division by a zero channel max, unsupported bit depth) is
modelled as `Option`/`Except` returning `none`/`error`.
-/

/-! ## Definitions: the shallow embedding of the source -/

/-- `rfb.PixelFormat` (rfb.go lines 856-871).  Field types in Go are
`uint8`/`uint16`/`bool`; the numeric fields are modelled as `Nat` (values read
from the wire are bounded by the byte decoders). -/
structure PixelFormat where
  BitsPerPixel : Nat
  BitDepth : Nat
  BigEndian : Bool
  TrueColor : Bool
  RedMax : Nat
  GreenMax : Nat
  BlueMax : Nat
  RedShift : Nat
  GreenShift : Nat
  BlueShift : Nat
deriving DecidableEq, Repr

/-- An integer point, modelling Go `image.Point`. -/
structure Pt where
  x : Int
  y : Int
deriving DecidableEq, Repr

/-- An integer rectangle, modelling Go `image.Rectangle` (min/max corners). -/
structure Rect where
  min : Pt
  max : Pt
deriving DecidableEq, Repr

/-- `image.Rectangle.Dx`. -/
def Rect.Dx (r : Rect) : Int := r.max.x - r.min.x

/-- `image.Rectangle.Dy`. -/
def Rect.Dy (r : Rect) : Int := r.max.y - r.min.y

/-- `binary.BigEndian.PutUint16`: b[0] = byte(v >> 8), b[1] = byte(v). -/
def putUint16be (v : Nat) : List Nat := [(v >>> 8) % 256, v % 256]

/-- `binary.LittleEndian.PutUint16`: b[0] = byte(v), b[1] = byte(v >> 8). -/
def putUint16le (v : Nat) : List Nat := [v % 256, (v >>> 8) % 256]

/-- `binary.BigEndian.PutUint32`. -/
def putUint32be (v : Nat) : List Nat :=
  [(v >>> 24) % 256, (v >>> 16) % 256, (v >>> 8) % 256, v % 256]

/-- `binary.LittleEndian.PutUint32`. -/
def putUint32le (v : Nat) : List Nat :=
  [v % 256, (v >>> 8) % 256, (v >>> 16) % 256, (v >>> 24) % 256]

/-- `binary.BigEndian.Uint16 [b0, b1]`. -/
def uint16be (b0 b1 : Nat) : Nat := (b0 <<< 8) ||| b1

/-- `binary.LittleEndian.Uint16 [b0, b1]`. -/
def uint16le (b0 b1 : Nat) : Nat := (b1 <<< 8) ||| b0

/-- `binary.BigEndian.Uint32 [b0, b1, b2, b3]`. -/
def uint32be (b0 b1 b2 b3 : Nat) : Nat :=
  (b0 <<< 24) ||| (b1 <<< 16) ||| (b2 <<< 8) ||| b3

/-- `binary.LittleEndian.Uint32 [b0, b1, b2, b3]`. -/
def uint32le (b0 b1 b2 b3 : Nat) : Nat :=
  (b3 <<< 24) ||| (b2 <<< 16) ||| (b1 <<< 8) ||| b0

/-- The `switch dst.PixelFormat.BitsPerPixel` byte-writing step shared by
`Set` and `CopyFromRGBA` (image.go lines 158-168): truncate the uint32 pixel
to `uint8`/`uint16`/itself and write it in the format byte order.  An
unsupported `BitsPerPixel` panics in Go (`none` here). -/
def writePixelBytes (pf : PixelFormat) (pixel : Nat) : Option (List Nat) :=
  if pf.BitsPerPixel = 8 then some [pixel % 256]
  else if pf.BitsPerPixel = 16 then
    some (if pf.BigEndian then putUint16be (pixel % 2 ^ 16)
      else putUint16le (pixel % 2 ^ 16))
  else if pf.BitsPerPixel = 32 then
    some (if pf.BigEndian then putUint32be pixel else putUint32le pixel)
  else none

/-- Per-pixel body of `CopyFromRGBA` (image.go lines 151-170): scale each
8-bit sample into the channel max with `(sample * max) / 0xff` (uint32
arithmetic, hence the `% 2 ^ 32`), shift into place, OR together, and write
the pixel bytes. -/
def copyFromRGBApixel (pf : PixelFormat) (r g b : Nat) : Option (List Nat) :=
  writePixelBytes pf
    (((((r * pf.RedMax % 2 ^ 32) / 255) <<< pf.RedShift) % 2 ^ 32) |||
      ((((g * pf.GreenMax % 2 ^ 32) / 255) <<< pf.GreenShift) % 2 ^ 32) |||
      ((((b * pf.BlueMax % 2 ^ 32) / 255) <<< pf.BlueShift) % 2 ^ 32))

/-- Pixel read of `CopyToRGBA` (image.go lines 117-128): reconstruct the wire
pixel from `bytesPerPixel` bytes in the format byte order.  `none` models the
Go panic on an unsupported `BitsPerPixel` (and a malformed byte slice, which
cannot occur in the loop). -/
def readPixel (pf : PixelFormat) (bytes : List Nat) : Option Nat :=
  if pf.BitsPerPixel = 8 then
    match bytes with
    | [b0] => some b0
    | _ => none
  else if pf.BitsPerPixel = 16 then
    match bytes with
    | [b0, b1] => some (if pf.BigEndian then uint16be b0 b1 else uint16le b0 b1)
    | _ => none
  else if pf.BitsPerPixel = 32 then
    match bytes with
    | [b0, b1, b2, b3] =>
      some (if pf.BigEndian then uint32be b0 b1 b2 b3 else uint32le b0 b1 b2 b3)
    | _ => none
  else none

/-- Channel extraction and 8-bit rescale of `CopyToRGBA` (image.go lines
130-139): `(pixel >> shift) & max`, then `uint8((v * 0xff) / max)` in uint32
arithmetic.  Division by a zero channel max panics in Go, modelled as
`none`. -/
def extractRGB8 (pf : PixelFormat) (pixel : Nat) : Option (Nat × Nat × Nat) :=
  if pf.RedMax = 0 ∨ pf.GreenMax = 0 ∨ pf.BlueMax = 0 then none
  else
    let r := (pixel >>> pf.RedShift) &&& pf.RedMax
    let g := (pixel >>> pf.GreenShift) &&& pf.GreenMax
    let b := (pixel >>> pf.BlueShift) &&& pf.BlueMax
    some ((r * 255 % 2 ^ 32) / pf.RedMax % 256,
      (g * 255 % 2 ^ 32) / pf.GreenMax % 256,
      (b * 255 % 2 ^ 32) / pf.BlueMax % 256)

/-- Per-pixel body of `CopyToRGBA` (image.go lines 116-140): read the wire
pixel, extract the channels, rescale to 8 bits. -/
def copyToRGBApixel (pf : PixelFormat) (bytes : List Nat) :
    Option (Nat × Nat × Nat) :=
  (readPixel pf bytes).bind (extractRGB8 pf)

/-- The wire round trip of one 8-bit RGB sample: `CopyFromRGBA` packing
followed by `CopyToRGBA` unpacking. -/
def pixelRoundTrip (pf : PixelFormat) (r g b : Nat) : Option (Nat × Nat × Nat) :=
  (copyFromRGBApixel pf r g b).bind (copyToRGBApixel pf)

/-- `PixelFormatColor.RGBA` (image.go lines 26-39): extract each channel via
`(pixel >> shift) & max` and scale to `0xffff` with `(v * 0xffff) / max`
(uint32 arithmetic).  Division by a zero channel max panics in Go, modelled
as `none`.  Alpha is always `0xffff`. -/
def PixelFormatColorRGBA (pf : PixelFormat) (pixel : Nat) :
    Option (Nat × Nat × Nat × Nat) :=
  if pf.RedMax = 0 ∨ pf.GreenMax = 0 ∨ pf.BlueMax = 0 then none
  else
    let r := (pixel >>> pf.RedShift) &&& pf.RedMax
    let g := (pixel >>> pf.GreenShift) &&& pf.GreenMax
    let b := (pixel >>> pf.BlueShift) &&& pf.BlueMax
    some ((r * 65535 % 2 ^ 32) / pf.RedMax, (g * 65535 % 2 ^ 32) / pf.GreenMax,
      (b * 65535 % 2 ^ 32) / pf.BlueMax, 65535)

/-- `rfb.PixelFormatImage` (image.go lines 11-18).  `Pix` is the allocated
byte buffer; `bo` is determined by `PixelFormat.BigEndian`. -/
structure PixelFormatImage where
  Pix : List Nat
  rect : Rect
  pixelFormat : PixelFormat
deriving DecidableEq, Repr

/-- The `bytesPerPixel` field computed in `NewPixelFormatImage`:
`int(pixelFormat.BitsPerPixel / 8)`. -/
def PixelFormatImage.bytesPerPixel (img : PixelFormatImage) : Int :=
  ((img.pixelFormat.BitsPerPixel / 8 : Nat) : Int)

/-- `NewPixelFormatImage` (image.go lines 41-61): reject a channel max above
`0xffff`, reject a `BitsPerPixel` outside 32/16/8, then allocate
`bytesPerPixel * Dx * Dy` bytes.  (Go `make` with a negative length would
panic; the length is taken through `Int.toNat`, and the size theorems assume
a well-formed rectangle, `min ≤ max`, as the `image` package guarantees.) -/
def NewPixelFormatImage (pf : PixelFormat) (bounds : Rect) :
    Except String PixelFormatImage :=
  if pf.RedMax > 0xffff ∨ pf.GreenMax > 0xffff ∨ pf.BlueMax > 0xffff then
    .error "RedMax, GreenMax, and BlueMax must be less than 0xffff"
  else if pf.BitsPerPixel ≠ 32 ∧ pf.BitsPerPixel ≠ 16 ∧ pf.BitsPerPixel ≠ 8 then
    .error "BitsPerPixel must be 32, 16, or 8"
  else
    .ok { Pix := List.replicate
            (((pf.BitsPerPixel / 8 : Nat) : Int) * bounds.Dx * bounds.Dy).toNat 0,
          rect := bounds, pixelFormat := pf }

/-- `PixelFormatImage.idx` (image.go lines 174-176). -/
def PixelFormatImage.idx (img : PixelFormatImage) (x y : Int) : Int :=
  (img.bytesPerPixel * img.rect.Dx) * (y - img.rect.min.y) +
    img.bytesPerPixel * (x - img.rect.min.x)

/-- The quantization step of a channel with max `m`: `⌈255 / m⌉`, the amount
of 8-bit value that one wire unit represents ("one rounding unit"). -/
def roundingUnit (m : Nat) : Nat := (255 + m - 1) / m

/-- A constructor-accepted format with fully overlapping channel fields
(all shifts 0), used to refute the unrestricted round-trip claim. -/
def overlapPixelFormat : PixelFormat :=
  { BitsPerPixel := 8, BitDepth := 8, BigEndian := true, TrueColor := true,
    RedMax := 255, GreenMax := 255, BlueMax := 255,
    RedShift := 0, GreenShift := 0, BlueShift := 0 }

/-- The low-depth test format of `image_test.go` (`pixelFormatWeird`):
8 bpp, little endian, 2-2-4 bit channels at shifts 6, 4, 0. -/
def weirdPixelFormat : PixelFormat :=
  { BitsPerPixel := 8, BitDepth := 6, BigEndian := false, TrueColor := true,
    RedMax := 3, GreenMax := 3, BlueMax := 15,
    RedShift := 6, GreenShift := 4, BlueShift := 0 }

/-- A 1×1 bounds rectangle. -/
def unitRect : Rect := { min := { x := 0, y := 0 }, max := { x := 1, y := 1 } }

/-- Packing as §4.1 of the spec words it: for each channel
`scaled = floor(sample * max / 255)`, shifted into position and ORed into an
integer of `bitsPerPixel` width, written big- or little-endian per
`format.bigEndian`; `bitsPerPixel` outside 8/16/32 is invalid. -/
def specPackPixel (pf : PixelFormat) (r g b : Nat) : Option (List Nat) :=
  let pixel := ((r * pf.RedMax / 255) <<< pf.RedShift |||
    (g * pf.GreenMax / 255) <<< pf.GreenShift |||
    (b * pf.BlueMax / 255) <<< pf.BlueShift) % 2 ^ pf.BitsPerPixel
  if pf.BitsPerPixel = 8 then some [pixel]
  else if pf.BitsPerPixel = 16 then
    some (if pf.BigEndian then putUint16be pixel else putUint16le pixel)
  else if pf.BitsPerPixel = 32 then
    some (if pf.BigEndian then putUint32be pixel else putUint32le pixel)
  else none

/-- Unpacking as §4.1 of the spec words it: read the `bitsPerPixel`-wide
integer in the format byte order, extract each channel via
`(pixel >> shift) & max`, rescale to 8 bits via
`floor(extracted * 255 / max)`. -/
def specUnpackPixel (pf : PixelFormat) (bytes : List Nat) :
    Option (Nat × Nat × Nat) :=
  (readPixel pf bytes).bind fun pixel =>
    some (((pixel >>> pf.RedShift) &&& pf.RedMax) * 255 / pf.RedMax,
      ((pixel >>> pf.GreenShift) &&& pf.GreenMax) * 255 / pf.GreenMax,
      ((pixel >>> pf.BlueShift) &&& pf.BlueMax) * 255 / pf.BlueMax)

/-- The fixed server wire format from `rfbServe` (main.go lines 55-67):
32 bpp, depth 24, big endian, true color, 8-8-8 channels at shifts 24/16/8. -/
def stdPixelFormat : PixelFormat :=
  { BitsPerPixel := 32, BitDepth := 24, BigEndian := true, TrueColor := true,
    RedMax := 255, GreenMax := 255, BlueMax := 255,
    RedShift := 24, GreenShift := 16, BlueShift := 8 }

/-- Go `int(x)` conversion of a float: truncation toward zero.  The float
values in the ui code hold small integers and exact halves, modelled
exactly by `ℚ`. -/
def qtrunc (q : ℚ) : Int := if 0 ≤ q then ⌊q⌋ else -⌊-q⌋

/-- Go `image.Rect(x0, y0, x1, y1)`: swaps the coordinates per axis so the
result is well-formed. -/
def imageRect (x0 y0 x1 y1 : Int) : Rect :=
  { min := { x := if x0 > x1 then x1 else x0, y := if y0 > y1 then y1 else y0 },
    max := { x := if x0 > x1 then x0 else x1, y := if y0 > y1 then y0 else y1 } }

/-- `image.Rectangle.Canon`: canonicalize the corner order per axis. -/
def Rect.Canon (r : Rect) : Rect := imageRect r.min.x r.min.y r.max.x r.max.y

/-- `image.ZR`, the zero rectangle. -/
def zeroRect : Rect := { min := { x := 0, y := 0 }, max := { x := 0, y := 0 } }

/-- The ui `Window` (part_000 lines 38-46).  `img` is immutable; only its
bounds matter to the geometry, so it is modelled by `imgBounds`.  The
derived `scaled` cache is not modelled. -/
structure Window where
  imgBounds : Rect
  crop : Rect
  lastCrop : Rect
  scale : ℚ
  pos : Pt
  moving : Bool
deriving DecidableEq, Repr

/-- `Window.ScreenRect` (part_000 lines 48-52):
`image.Rect(pos.X, pos.Y, pos.X+width, pos.Y+height)` with
`width = int(float64(crop.Dx()) * scale)` and likewise for height. -/
def Window.ScreenRect (w : Window) : Rect :=
  imageRect w.pos.x w.pos.y
    (w.pos.x + qtrunc ((w.crop.Dx : ℚ) * w.scale))
    (w.pos.y + qtrunc ((w.crop.Dy : ℚ) * w.scale))

/-- `Window.ScreenToWindow` (part_000 lines 54-59):
`x = float64(pt.X-sr.Min.X)/scale + float64(crop.Min.X)` (divide first, then
add the crop origin), truncated to int. -/
def Window.ScreenToWindow (w : Window) (pt : Pt) : Pt :=
  { x := qtrunc (((pt.x - w.ScreenRect.min.x : Int) : ℚ) / w.scale + (w.crop.min.x : ℚ)),
    y := qtrunc (((pt.y - w.ScreenRect.min.y : Int) : ℚ) / w.scale + (w.crop.min.y : ℚ)) }

/-- `Window.WindowToScreen` (part_000 lines 61-65):
`x = float64(pt.X-crop.Min.X)*scale + float64(pos.X)`, truncated to int. -/
def Window.WindowToScreen (w : Window) (pt : Pt) : Pt :=
  { x := qtrunc (((pt.x - w.crop.min.x : Int) : ℚ) * w.scale + (w.pos.x : ℚ)),
    y := qtrunc (((pt.y - w.crop.min.y : Int) : ℚ) * w.scale + (w.pos.y : ℚ)) }

/-- The crop-select release closure of `defaultEventHandler`
(part_000 lines 223-246), at the event where the right button is released.
`loc` is the press point, `loc2` the release point.  The Go guard
`math.Hypot(float64(loc2.X-loc.X), float64(loc2.Y-loc.Y)) < 10` on integer
deltas is equivalent to `dx^2 + dy^2 < 100` (the square root of an integer
is below 10 exactly when the integer is below 100, and both are computed
exactly in float64 at these magnitudes).
Click branch: swap `crop` with `lastCrop` when the crop is natural,
otherwise revert `crop` to the image bounds remembering the old crop; then
shift `pos` by the truncated `(newMin - oldMin) * scale`.
Drag branch: the two corners converted to window coordinates and
canonicalized become the new crop; `pos` is recomputed from the min corner
of the new crop with the old crop still in place (`lastCrop` is not touched). -/
def cropSelectRelease (loc loc2 : Pt) (w : Window) : Window :=
  if (loc2.x - loc.x) ^ 2 + (loc2.y - loc.y) ^ 2 < 100 then
    let oldcrop := w.crop
    let pair : Rect × Rect :=
      if w.imgBounds = w.crop then (w.lastCrop, w.crop) else (w.imgBounds, w.crop)
    { w with
      crop := pair.1
      lastCrop := pair.2
      pos := { x := w.pos.x + qtrunc (((pair.1.min.x - oldcrop.min.x : Int) : ℚ) * w.scale),
               y := w.pos.y + qtrunc (((pair.1.min.y - oldcrop.min.y : Int) : ℚ) * w.scale) } }
  else
    let newcrop := (Rect.mk (w.ScreenToWindow loc) (w.ScreenToWindow loc2)).Canon
    { w with pos := w.WindowToScreen newcrop.min, crop := newcrop }

/-- One step of the shift loop in `moveToFront`:
`windows[idx] = windows[idx+1]`. -/
def copyDown (l : List Window) (idx : Nat) : List Window :=
  match l.get? (idx + 1) with
  | some v => l.set idx v
  | none => l

/-- The `for i := windowIdx; i <= len-2; i++` loop of `moveToFront`
(part_000 lines 150-152), running `count` iterations from index `idx`. -/
def copyLoop (l : List Window) (idx count : Nat) : List Window :=
  match count with
  | 0 => l
  | c + 1 => copyLoop (copyDown l idx) (idx + 1) c

/-- `UI.moveToFront` (part_000 lines 148-154): save `windows[i]`, shift the
suffix left by one, store the saved window at the tail. -/
def moveToFront (l : List Window) (i : Nat) : List Window :=
  match l.get? i with
  | some win => (copyLoop l i (l.length - 1 - i)).set (l.length - 1) win
  | none => l

/-- The ui state (part_000 lines 27-36).  The event-handler closure is the
interaction mode and is not part of this data model. -/
structure UI where
  Title : String
  Width : Int
  Height : Int
  windows : List Window
  pendingCrop : Rect
deriving DecidableEq, Repr

/-- The window built for one decoded image in `NewUI` (part_000 line 107):
crop and lastCrop start at the image bounds, scale 0.5, position (0, 0). -/
def newWindow (bounds : Rect) : Window :=
  { imgBounds := bounds, crop := bounds, lastCrop := bounds,
    scale := 1 / 2, pos := { x := 0, y := 0 }, moving := false }

/-- The image-loading loop of `NewUI` (part_000 lines 89-110): each entry of
the directory either decodes to an image (modelled by its bounds) or fails;
a failure is logged and skipped (`log.Print(err); continue`), a success
appends a fresh window. -/
def loadWindows : List (Except String Rect) → List Window
  | [] => []
  | .error _ :: rest => loadWindows rest
  | .ok bounds :: rest => newWindow bounds :: loadWindows rest

/-- `NewUI` (part_000 lines 83-115) after a successful directory listing:
builds the window list by the loading loop and always returns a ui titled
"freethumb" of size 1200×720. -/
def NewUI (results : List (Except String Rect)) : UI :=
  { Title := "freethumb", Width := 1200, Height := 720,
    windows := loadWindows results, pendingCrop := zeroRect }

/-- A window with a natural crop and a distinct remembered crop, for the
click-toggle witness. -/
def c4Window : Window :=
  { imgBounds := { min := { x := 0, y := 0 }, max := { x := 200, y := 100 } },
    crop := { min := { x := 0, y := 0 }, max := { x := 200, y := 100 } },
    lastCrop := { min := { x := 5, y := 5 }, max := { x := 20, y := 20 } },
    scale := 1 / 2, pos := { x := 30, y := 40 }, moving := false }

/-- The window of the coordinate-inverse scenario: scale 2.0,
crop.min = (10, 10), position = (100, 100). -/
def c5Window : Window :=
  { imgBounds := { min := { x := 0, y := 0 }, max := { x := 400, y := 300 } },
    crop := { min := { x := 10, y := 10 }, max := { x := 210, y := 110 } },
    lastCrop := { min := { x := 10, y := 10 }, max := { x := 210, y := 110 } },
    scale := 2, pos := { x := 100, y := 100 }, moving := false }

/-- Three concrete windows for the z-order witness. -/
def zWindows : List Window :=
  [newWindow { min := { x := 0, y := 0 }, max := { x := 1, y := 1 } },
   newWindow { min := { x := 0, y := 0 }, max := { x := 2, y := 2 } },
   newWindow { min := { x := 0, y := 0 }, max := { x := 3, y := 3 } }]

/-- `bo.Uint16` with the byte order chosen by the caller. -/
def readUint16 (bigE : Bool) (b0 b1 : Nat) : Nat :=
  if bigE then uint16be b0 b1 else uint16le b0 b1

/-- `PixelFormat.Read` (rfb.go lines 874-886): decode 13 meaningful bytes of
the 16-byte wire format (3 trailing pad bytes ignored).  The doc comment of
the source requires at least 16 bytes in `buf`; shorter input would panic
(`none`).  No validation of any field is performed. -/
def pixelFormatRead (buf : List Nat) (bigE : Bool) : Option PixelFormat :=
  match buf with
  | b0 :: b1 :: b2 :: b3 :: b4 :: b5 :: b6 :: b7 :: b8 :: b9 :: b10 :: b11
      :: b12 :: _ =>
    some { BitsPerPixel := b0, BitDepth := b1, BigEndian := b2 != 0,
           TrueColor := b3 != 0,
           RedMax := readUint16 bigE b4 b5, GreenMax := readUint16 bigE b6 b7,
           BlueMax := readUint16 bigE b8 b9,
           RedShift := b10, GreenShift := b11, BlueShift := b12 }
  | _ => none

/-- `SetPixelFormatMessage.Read` (rfb.go lines 473-483): read 20 bytes,
require message type byte 0, then decode the PixelFormat from offset 4.
The format itself is not validated. -/
def setPixelFormatMessageRead (bytes : List Nat) (bigE : Bool) :
    Except String PixelFormat :=
  if bytes.length < 20 then .error "short read"
  else
    match bytes with
    | b0 :: _ :: _ :: _ :: rest =>
      if b0 ≠ 0 then .error "expected message type 0"
      else
        match pixelFormatRead rest bigE with
        | some pf => .ok pf
        | none => .error "short buffer"
    | _ => .error "short read"

/-- The per-connection mutable state of `rfbServe` that the SetPixelFormat
case touches: the active pixel format (main.go line 141). -/
structure Session where
  pixelFormat : PixelFormat
deriving DecidableEq, Repr

/-- The `case 0: // SetPixelFormat` arm of the session loop (main.go lines
136-141): decode the message and unconditionally store its format as the
active format of the session.  No validity check of any kind is made here; the
byte order `bo` of `rfbServe` is big-endian. -/
def handleSetPixelFormat (st : Session) (bytes : List Nat) :
    Except String Session :=
  match setPixelFormatMessageRead bytes true with
  | .error e => .error e
  | .ok pf => .ok { st with pixelFormat := pf }

/-- ASCII decimal digits of a number (Go `%d`). -/
def decimalDigits (n : Nat) : List Nat := (Nat.toDigits 10 n).map Char.toNat

/-- Go `%03d`: decimal digits left-padded with ASCII zeros to width 3. -/
def pad3 (n : Nat) : List Nat :=
  List.replicate (3 - (decimalDigits n).length) 48 ++ decimalDigits n

/-- `fmt.Sprintf("RFB %03d.%03d\n", major, minor)` as bytes
(rfb.go line 310). -/
def protocolVersionBytes (maj minr : Nat) : List Nat :=
  [82, 70, 66, 32] ++ pad3 maj ++ [46] ++ pad3 minr ++ [10]

/-- `ProtocolVersionMessage.Write` (rfb.go lines 309-318): format the
version string and refuse to send it unless it is exactly 12 bytes. -/
def protocolVersionWrite (maj minr : Nat) : Except String (List Nat) :=
  if (protocolVersionBytes maj minr).length ≠ 12 then
    .error "expected formatted message to be 12 bytes"
  else .ok (protocolVersionBytes maj minr)

/-- Whether a byte is an ASCII decimal digit. -/
def isDigitByte (c : Nat) : Bool := decide (48 ≤ c ∧ c ≤ 57)

/-- `ProtocolVersionMessage.Read` (rfb.go lines 298-307): read exactly 12
bytes and parse them with `fmt.Sscanf("RFB %03d.%03d\n", ...)` — the fixed
text, two 3-digit decimal fields, and the trailing newline. -/
def parseProtocolVersion (buf : List Nat) : Except String (Nat × Nat) :=
  match buf with
  | [82, 70, 66, 32, d1, d2, d3, 46, e1, e2, e3, 10] =>
    if isDigitByte d1 && isDigitByte d2 && isDigitByte d3 && isDigitByte e1
        && isDigitByte e2 && isDigitByte e3 then
      .ok ((d1 - 48) * 100 + (d2 - 48) * 10 + (d3 - 48),
        (e1 - 48) * 100 + (e2 - 48) * 10 + (e3 - 48))
    else .error "parse"
  | _ => .error "parse"

/-- `AuthenticationSchemeMessageRFB33{AuthenticationSchemeVNC}` written big
endian (main.go line 89, rfb.go lines 341-348): the uint32 value 2. -/
def authSchemeVNCBytes : List Nat := [0, 0, 0, 2]

/-- The empty `VNCAuthenticationChallengeMessage` (main.go line 93):
16 zero bytes. -/
def authChallengeBytes : List Nat := List.replicate 16 0

/-- The start of `rfbServe` (main.go lines 78-95) as a trace of the byte
strings written to the connection paired with the outcome:
write the server ProtocolVersion, read the client reply, fail the
connection unless it announces exactly 3.3, and otherwise continue into
the authentication exchange (whose first two writes are the VNC scheme
and the empty challenge). -/
def rfbServeStart (clientReply : List Nat) :
    List (List Nat) × Except String Unit :=
  match protocolVersionWrite 3 3 with
  | .error e => ([], .error e)
  | .ok pv =>
    match parseProtocolVersion clientReply with
    | .error e => ([pv], .error e)
    | .ok (maj, minr) =>
      if maj ≠ 3 ∨ minr ≠ 3 then
        ([pv], .error "only version 3.3 is supported")
      else ([pv, authSchemeVNCBytes, authChallengeBytes], .ok ())

/-- The 20-byte SetPixelFormat message carrying BitsPerPixel = 7 (an invalid
depth), big-endian 8-bit channel maxes, shifts 24/16/8. -/
def badSetPixelFormatBytes : List Nat :=
  [0, 0, 0, 0, 7, 24, 1, 1, 0, 255, 0, 255, 0, 255, 24, 16, 8, 0, 0, 0]

/-- The format those bytes decode to. -/
def badPixelFormat : PixelFormat :=
  { BitsPerPixel := 7, BitDepth := 24, BigEndian := true, TrueColor := true,
    RedMax := 255, GreenMax := 255, BlueMax := 255,
    RedShift := 24, GreenShift := 16, BlueShift := 8 }

/-- The 12 ASCII bytes of "RFB 003.003\n". -/
def rfb33Bytes : List Nat := [82, 70, 66, 32, 48, 48, 51, 46, 48, 48, 51, 10]

/-- A format with RedMax = 0 that every constructor and decoder accepts. -/
def zeroMaxPixelFormat : PixelFormat :=
  { BitsPerPixel := 32, BitDepth := 24, BigEndian := true, TrueColor := true,
    RedMax := 0, GreenMax := 255, BlueMax := 255,
    RedShift := 24, GreenShift := 16, BlueShift := 8 }

/-- A 16-byte wire encoding (big endian) of that format. -/
def zeroMaxFormatBytes : List Nat :=
  [32, 24, 1, 1, 0, 0, 0, 255, 0, 255, 24, 16, 8, 0, 0, 0]

/-- A 2×2 bounds rectangle. -/
def rect22 : Rect := { min := { x := 0, y := 0 }, max := { x := 2, y := 2 } }

/-- The image `NewPixelFormatImage` allocates for the standard format on a
2×2 rectangle: 16 zero bytes. -/
def img22 : PixelFormatImage :=
  { Pix := List.replicate 16 0, rect := rect22, pixelFormat := stdPixelFormat }

/-! ## Lemmas and claim theorems -/

/-- Rescaling down then up never exceeds the original sample. -/
lemma rescale_le (s m : Nat) (hm : 0 < m) : s * m / 255 * 255 / m ≤ s := by
  have h1 : s * m / 255 * 255 ≤ s * m := Nat.div_mul_le_self _ _
  calc s * m / 255 * 255 / m ≤ s * m / m := Nat.div_le_div_right h1
    _ = s := Nat.mul_div_cancel s hm

/-- Rescaling down then up loses at most one rounding unit. -/
lemma rescale_lower (s m : Nat) (hm : 0 < m) :
    s ≤ s * m / 255 * 255 / m + roundingUnit m := by
  by_contra hcon
  push_neg at hcon
  have h1 : s * m < s * m / 255 * 255 + 255 := by
    have ha := Nat.div_add_mod (s * m) 255
    have hb := Nat.mod_lt (s * m) (show 0 < 255 by norm_num)
    omega
  have h2 : s * m / 255 * 255 < m * (s * m / 255 * 255 / m) + m := by
    have ha := Nat.div_add_mod (s * m / 255 * 255) m
    have hb := Nat.mod_lt (s * m / 255 * 255) hm
    omega
  have h5 : 255 ≤ roundingUnit m * m := by
    rw [roundingUnit]
    have ha := Nat.div_add_mod (255 + m - 1) m
    have hb := Nat.mod_lt (255 + m - 1) hm
    have hc : (255 + m - 1) / m * m = m * ((255 + m - 1) / m) := Nat.mul_comm _ _
    omega
  have h3 : m * (s * m / 255 * 255 / m) + roundingUnit m * m + m ≤ s * m := by
    calc m * (s * m / 255 * 255 / m) + roundingUnit m * m + m
        = (s * m / 255 * 255 / m + roundingUnit m + 1) * m := by ring
      _ ≤ s * m := Nat.mul_le_mul_right m (by omega)
  omega

/-- Bits of a field shifted into place, inside the range of that field. -/
lemma testBit_field_own (v s i : Nat) :
    (v <<< s).testBit (s + i) = v.testBit i := by
  rw [Nat.testBit_shiftLeft]
  have h1 : s + i ≥ s := Nat.le_add_right _ _
  have h2 : s + i - s = i := by omega
  simp [h1, h2]

/-- A packed field contributes no bits inside the range of a disjoint field. -/
lemma testBit_field_other (v s w s' w' i : Nat) (hv : v < 2 ^ w)
    (hdis : s + w ≤ s' ∨ s' + w' ≤ s) (hi : i < w') :
    (v <<< s).testBit (s' + i) = false := by
  rw [Nat.testBit_shiftLeft]
  rcases hdis with h | h
  · have hge : s' + i ≥ s := by omega
    have hidx : w ≤ s' + i - s := by omega
    have hvlt : v < 2 ^ (s' + i - s) :=
      lt_of_lt_of_le hv (Nat.pow_le_pow_right (by norm_num) hidx)
    simp [hge, Nat.testBit_lt_two_pow hvlt]
  · have : ¬ (s' + i ≥ s) := by omega
    simp [this]

/-- Extracting a field of width `w` at shift `s` from a `bpp`-bit pixel whose
bits in that range agree with `v`. -/
lemma extract_of_testBit (X v s w bpp : Nat) (hv : v < 2 ^ w)
    (hfit : s + w ≤ bpp)
    (hX : ∀ i, i < w → X.testBit (s + i) = v.testBit i) :
    ((X % 2 ^ bpp) >>> s) &&& (2 ^ w - 1) = v := by
  apply Nat.eq_of_testBit_eq
  intro i
  rw [Nat.testBit_land, Nat.testBit_shiftRight, Nat.testBit_mod_two_pow,
    Nat.testBit_two_pow_sub_one]
  by_cases hi : i < w
  · have hlt : s + i < bpp := by omega
    simp [hi, hlt, hX i hi]
  · have hvi : v.testBit i = false := by
      have : v < 2 ^ i :=
        lt_of_lt_of_le hv (Nat.pow_le_pow_right (by norm_num) (by omega))
      exact Nat.testBit_lt_two_pow this
    simp [hi, hvi]

/-- The bits of one extracted byte of a value. -/
lemma testBit_byteval (p k i : Nat) :
    ((p >>> k) % 256).testBit i = (decide (i < 8) && p.testBit (k + i)) := by
  have h256 : (256 : Nat) = 2 ^ 8 := rfl
  rw [h256, Nat.testBit_mod_two_pow, Nat.testBit_shiftRight]

/-- One byte of a value, shifted back into place, bit by bit. -/
lemma testBit_put_byte (p k s i : Nat) :
    (((p >>> k) % 256) <<< s).testBit i =
      (decide (s ≤ i) && decide (i - s < 8) && p.testBit (k + (i - s))) := by
  rw [Nat.testBit_shiftLeft, testBit_byteval]
  simp [ge_iff_le, Bool.and_assoc]

/-- `binary.BigEndian.Uint16` after `PutUint16` recovers the low 16 bits. -/
lemma uint16be_put (p : Nat) : uint16be ((p >>> 8) % 256) (p % 256) = p % 2 ^ 16 := by
  have h0 : p % 256 = (p >>> 0) % 256 := by rw [Nat.shiftRight_zero]
  apply Nat.eq_of_testBit_eq
  intro i
  rw [uint16be, h0, Nat.testBit_lor, testBit_put_byte p 8 8 i,
    testBit_byteval p 0 i, Nat.testBit_mod_two_pow]
  by_cases ha : i < 8
  · simp [ha, show ¬ (8 ≤ i) by omega, show 0 + i = i by omega,
      show i < 16 by omega]
  · by_cases hb : i < 16
    · simp [ha, hb, show 8 ≤ i by omega, show i - 8 < 8 by omega,
        show 8 + (i - 8) = i by omega]
    · simp [ha, hb, show ¬ (i - 8 < 8) by omega]

/-- `binary.LittleEndian.Uint16` after `PutUint16` recovers the low 16 bits. -/
lemma uint16le_put (p : Nat) : uint16le (p % 256) ((p >>> 8) % 256) = p % 2 ^ 16 :=
  uint16be_put p

/-- `binary.BigEndian.Uint32` after `PutUint32` recovers the low 32 bits. -/
lemma uint32be_put (p : Nat) :
    uint32be ((p >>> 24) % 256) ((p >>> 16) % 256) ((p >>> 8) % 256) (p % 256) =
      p % 2 ^ 32 := by
  have h0 : p % 256 = (p >>> 0) % 256 := by rw [Nat.shiftRight_zero]
  apply Nat.eq_of_testBit_eq
  intro i
  rw [uint32be, h0, Nat.testBit_lor, Nat.testBit_lor, Nat.testBit_lor,
    testBit_put_byte p 24 24 i, testBit_put_byte p 16 16 i,
    testBit_put_byte p 8 8 i, testBit_byteval p 0 i, Nat.testBit_mod_two_pow]
  by_cases ha : i < 8
  · simp [ha, show ¬ (8 ≤ i) by omega, show ¬ (16 ≤ i) by omega,
      show ¬ (24 ≤ i) by omega, show 0 + i = i by omega, show i < 32 by omega]
  · by_cases hb : i < 16
    · simp [ha, show 8 ≤ i by omega, show ¬ (16 ≤ i) by omega,
        show ¬ (24 ≤ i) by omega, show i - 8 < 8 by omega,
        show 8 + (i - 8) = i by omega, show i < 32 by omega]
    · by_cases hc : i < 24
      · simp [ha, show 8 ≤ i by omega, show 16 ≤ i by omega,
          show ¬ (24 ≤ i) by omega, show i - 16 < 8 by omega,
          show 16 + (i - 16) = i by omega, show ¬ (i - 8 < 8) by omega,
          show i < 32 by omega]
      · by_cases hd : i < 32
        · simp [ha, show 8 ≤ i by omega, show 16 ≤ i by omega,
            show 24 ≤ i by omega, show i - 24 < 8 by omega,
            show 24 + (i - 24) = i by omega, show ¬ (i - 8 < 8) by omega,
            show ¬ (i - 16 < 8) by omega, show i < 32 by omega]
        · simp [ha, hd, show ¬ (i - 8 < 8) by omega,
            show ¬ (i - 16 < 8) by omega, show ¬ (i - 24 < 8) by omega]

/-- `binary.LittleEndian.Uint32` after `PutUint32` recovers the low 32 bits. -/
lemma uint32le_put (p : Nat) :
    uint32le (p % 256) ((p >>> 8) % 256) ((p >>> 16) % 256) ((p >>> 24) % 256) =
      p % 2 ^ 32 :=
  uint32be_put p

/-- Extracting the first packed field recovers it. -/
lemma extract_triple_red (vr vg vb rs gs bs rw gw bw bpp mr : Nat)
    (hm : mr = 2 ^ rw - 1)
    (hvr : vr < 2 ^ rw) (hvg : vg < 2 ^ gw) (hvb : vb < 2 ^ bw)
    (hfr : rs + rw ≤ bpp)
    (hrg : rs + rw ≤ gs ∨ gs + gw ≤ rs)
    (hrb : rs + rw ≤ bs ∨ bs + bw ≤ rs) :
    (((vr <<< rs ||| vg <<< gs ||| vb <<< bs) % 2 ^ bpp) >>> rs) &&& mr = vr := by
  rw [hm]
  apply extract_of_testBit _ _ _ _ _ hvr hfr
  intro i hi
  rw [Nat.testBit_lor, Nat.testBit_lor, testBit_field_own,
    testBit_field_other vg gs gw rs rw i hvg hrg.symm hi,
    testBit_field_other vb bs bw rs rw i hvb hrb.symm hi]
  simp

/-- Extracting the second packed field recovers it. -/
lemma extract_triple_green (vr vg vb rs gs bs rw gw bw bpp mg : Nat)
    (hm : mg = 2 ^ gw - 1)
    (hvr : vr < 2 ^ rw) (hvg : vg < 2 ^ gw) (hvb : vb < 2 ^ bw)
    (hfg : gs + gw ≤ bpp)
    (hrg : rs + rw ≤ gs ∨ gs + gw ≤ rs)
    (hgb : gs + gw ≤ bs ∨ bs + bw ≤ gs) :
    (((vr <<< rs ||| vg <<< gs ||| vb <<< bs) % 2 ^ bpp) >>> gs) &&& mg = vg := by
  rw [hm]
  apply extract_of_testBit _ _ _ _ _ hvg hfg
  intro i hi
  rw [Nat.testBit_lor, Nat.testBit_lor, testBit_field_own,
    testBit_field_other vr rs rw gs gw i hvr hrg hi,
    testBit_field_other vb bs bw gs gw i hvb hgb.symm hi]
  simp

/-- Extracting the third packed field recovers it. -/
lemma extract_triple_blue (vr vg vb rs gs bs rw gw bw bpp mb : Nat)
    (hm : mb = 2 ^ bw - 1)
    (hvr : vr < 2 ^ rw) (hvg : vg < 2 ^ gw) (hvb : vb < 2 ^ bw)
    (hfb : bs + bw ≤ bpp)
    (hrb : rs + rw ≤ bs ∨ bs + bw ≤ rs)
    (hgb : gs + gw ≤ bs ∨ bs + bw ≤ gs) :
    (((vr <<< rs ||| vg <<< gs ||| vb <<< bs) % 2 ^ bpp) >>> bs) &&& mb = vb := by
  rw [hm]
  apply extract_of_testBit _ _ _ _ _ hvb hfb
  intro i hi
  rw [Nat.testBit_lor, Nat.testBit_lor, testBit_field_own,
    testBit_field_other vr rs rw bs bw i hvr hrb hi,
    testBit_field_other vg gs gw bs bw i hvg hgb hi]
  simp

/-- A scaled-down sample never exceeds the channel max. -/
lemma scaled_le_max (s m : Nat) (hs : s ≤ 255) : s * m / 255 ≤ m := by
  calc s * m / 255 ≤ 255 * m / 255 :=
        Nat.div_le_div_right (Nat.mul_le_mul_right m hs)
    _ = m := by rw [Nat.mul_comm]; exact Nat.mul_div_cancel m (by norm_num)

/-- The uint32 and uint8 truncations in the `CopyToRGBA` rescale are no-ops. -/
lemma channel_out (v m : Nat) (hm : 0 < m) (hv : v ≤ m) (hmax : m ≤ 65535) :
    (v * 255 % 2 ^ 32) / m % 256 = v * 255 / m := by
  have h1 : v * 255 < 2 ^ 32 :=
    lt_of_le_of_lt (Nat.mul_le_mul_right 255 (le_trans hv hmax)) (by norm_num)
  rw [Nat.mod_eq_of_lt h1]
  have h2 : v * 255 / m ≤ 255 := by
    calc v * 255 / m ≤ m * 255 / m := Nat.div_le_div_right (Nat.mul_le_mul_right 255 hv)
      _ = 255 := by rw [Nat.mul_comm]; exact Nat.mul_div_cancel 255 hm
  exact Nat.mod_eq_of_lt (by omega)

/-- A packed field stays inside 32 bits when it fits in the pixel width. -/
lemma field_lt_two_pow_32 (v s w bpp : Nat) (hv : v < 2 ^ w) (hfit : s + w ≤ bpp)
    (hbpp : bpp ≤ 32) : v <<< s < 2 ^ 32 := by
  rw [Nat.shiftLeft_eq_mul_pow]
  calc v * 2 ^ s < 2 ^ w * 2 ^ s :=
        Nat.mul_lt_mul_of_lt_of_le hv (le_refl _) (Nat.pos_pow_of_pos s (by norm_num))
    _ = 2 ^ (s + w) := by rw [← Nat.pow_add, Nat.add_comm]
    _ ≤ 2 ^ 32 := Nat.pow_le_pow_right (by norm_num) (le_trans hfit hbpp)

/-- Writing a pixel with the `CopyFromRGBA` byte switch and reading it back
with the `CopyToRGBA` byte switch recovers the pixel truncated to
`BitsPerPixel` bits. -/
lemma write_read_pixel (pf : PixelFormat) (p : Nat)
    (h : pf.BitsPerPixel = 8 ∨ pf.BitsPerPixel = 16 ∨ pf.BitsPerPixel = 32) :
    (writePixelBytes pf p).bind (readPixel pf) = some (p % 2 ^ pf.BitsPerPixel) := by
  rcases h with h | h | h
  · simp only [writePixelBytes, readPixel, h, if_pos rfl]
    rfl
  · cases hbe : pf.BigEndian
    · have key := uint16le_put (p % 2 ^ 16)
      rw [Nat.mod_mod_of_dvd _ dvd_rfl] at key
      norm_num at key
      simp [writePixelBytes, readPixel, h, hbe, putUint16le]
      rw [show p % 65536 % 256 = p % 256 from Nat.mod_mod_of_dvd p (by norm_num)]
      exact key
    · have key := uint16be_put (p % 2 ^ 16)
      rw [Nat.mod_mod_of_dvd _ dvd_rfl] at key
      norm_num at key
      simp [writePixelBytes, readPixel, h, hbe, putUint16be]
      rw [show p % 65536 % 256 = p % 256 from Nat.mod_mod_of_dvd p (by norm_num)]
      exact key
  · cases hbe : pf.BigEndian
    · have key := uint32le_put p
      norm_num at key
      simp [writePixelBytes, readPixel, h, hbe, putUint32le, key]
    · have key := uint32be_put p
      norm_num at key
      simp [writePixelBytes, readPixel, h, hbe, putUint32be, key]

/-- Under a format whose channel maxes are `2 ^ w - 1`, whose fields fit in
the pixel width and occupy pairwise disjoint bit ranges, the
`CopyFromRGBA`-then-`CopyToRGBA` round trip of an 8-bit sample computes
exactly `floor(floor(s * max / 255) * 255 / max)` per channel. -/
lemma pixelRoundTrip_eq (pf : PixelFormat) (rw gw bw : Nat)
    (hbpp : pf.BitsPerPixel = 8 ∨ pf.BitsPerPixel = 16 ∨ pf.BitsPerPixel = 32)
    (hrm : pf.RedMax = 2 ^ rw - 1) (hgm : pf.GreenMax = 2 ^ gw - 1)
    (hbm : pf.BlueMax = 2 ^ bw - 1)
    (hrw : 0 < rw) (hgw : 0 < gw) (hbw : 0 < bw)
    (hrmax : pf.RedMax ≤ 65535) (hgmax : pf.GreenMax ≤ 65535)
    (hbmax : pf.BlueMax ≤ 65535)
    (hfr : pf.RedShift + rw ≤ pf.BitsPerPixel)
    (hfg : pf.GreenShift + gw ≤ pf.BitsPerPixel)
    (hfb : pf.BlueShift + bw ≤ pf.BitsPerPixel)
    (hrg : pf.RedShift + rw ≤ pf.GreenShift ∨ pf.GreenShift + gw ≤ pf.RedShift)
    (hrb : pf.RedShift + rw ≤ pf.BlueShift ∨ pf.BlueShift + bw ≤ pf.RedShift)
    (hgb : pf.GreenShift + gw ≤ pf.BlueShift ∨ pf.BlueShift + bw ≤ pf.GreenShift)
    (r g b : Nat) (hr : r ≤ 255) (hg : g ≤ 255) (hb : b ≤ 255) :
    pixelRoundTrip pf r g b =
      some (r * pf.RedMax / 255 * 255 / pf.RedMax,
        g * pf.GreenMax / 255 * 255 / pf.GreenMax,
        b * pf.BlueMax / 255 * 255 / pf.BlueMax) := by
  have hbpp32 : pf.BitsPerPixel ≤ 32 := by rcases hbpp with h | h | h <;> omega
  have h2rw : 2 ≤ 2 ^ rw := by
    calc (2 : Nat) = 2 ^ 1 := rfl
      _ ≤ 2 ^ rw := Nat.pow_le_pow_right (by norm_num) hrw
  have h2gw : 2 ≤ 2 ^ gw := by
    calc (2 : Nat) = 2 ^ 1 := rfl
      _ ≤ 2 ^ gw := Nat.pow_le_pow_right (by norm_num) hgw
  have h2bw : 2 ≤ 2 ^ bw := by
    calc (2 : Nat) = 2 ^ 1 := rfl
      _ ≤ 2 ^ bw := Nat.pow_le_pow_right (by norm_num) hbw
  have hrpos : 0 < pf.RedMax := by omega
  have hgpos : 0 < pf.GreenMax := by omega
  have hbpos : 0 < pf.BlueMax := by omega
  have hmr : r * pf.RedMax % 2 ^ 32 = r * pf.RedMax :=
    Nat.mod_eq_of_lt (lt_of_le_of_lt (Nat.mul_le_mul hr hrmax) (by norm_num))
  have hmg : g * pf.GreenMax % 2 ^ 32 = g * pf.GreenMax :=
    Nat.mod_eq_of_lt (lt_of_le_of_lt (Nat.mul_le_mul hg hgmax) (by norm_num))
  have hmb : b * pf.BlueMax % 2 ^ 32 = b * pf.BlueMax :=
    Nat.mod_eq_of_lt (lt_of_le_of_lt (Nat.mul_le_mul hb hbmax) (by norm_num))
  have hvr : r * pf.RedMax / 255 < 2 ^ rw := by
    have h1 := scaled_le_max r pf.RedMax hr
    omega
  have hvg : g * pf.GreenMax / 255 < 2 ^ gw := by
    have h1 := scaled_le_max g pf.GreenMax hg
    omega
  have hvb : b * pf.BlueMax / 255 < 2 ^ bw := by
    have h1 := scaled_le_max b pf.BlueMax hb
    omega
  have hsr : (r * pf.RedMax / 255) <<< pf.RedShift % 2 ^ 32
      = (r * pf.RedMax / 255) <<< pf.RedShift :=
    Nat.mod_eq_of_lt (field_lt_two_pow_32 _ _ rw _ hvr hfr hbpp32)
  have hsg : (g * pf.GreenMax / 255) <<< pf.GreenShift % 2 ^ 32
      = (g * pf.GreenMax / 255) <<< pf.GreenShift :=
    Nat.mod_eq_of_lt (field_lt_two_pow_32 _ _ gw _ hvg hfg hbpp32)
  have hsb : (b * pf.BlueMax / 255) <<< pf.BlueShift % 2 ^ 32
      = (b * pf.BlueMax / 255) <<< pf.BlueShift :=
    Nat.mod_eq_of_lt (field_lt_two_pow_32 _ _ bw _ hvb hfb hbpp32)
  have hned : ¬ (pf.RedMax = 0 ∨ pf.GreenMax = 0 ∨ pf.BlueMax = 0) := by omega
  have hout_r := channel_out (r * pf.RedMax / 255) pf.RedMax hrpos
    (scaled_le_max r pf.RedMax hr) hrmax
  have hout_g := channel_out (g * pf.GreenMax / 255) pf.GreenMax hgpos
    (scaled_le_max g pf.GreenMax hg) hgmax
  have hout_b := channel_out (b * pf.BlueMax / 255) pf.BlueMax hbpos
    (scaled_le_max b pf.BlueMax hb) hbmax
  have hT := write_read_pixel pf ((r * pf.RedMax / 255) <<< pf.RedShift |||
    (g * pf.GreenMax / 255) <<< pf.GreenShift |||
    (b * pf.BlueMax / 255) <<< pf.BlueShift) hbpp
  calc pixelRoundTrip pf r g b
      = (writePixelBytes pf ((r * pf.RedMax / 255) <<< pf.RedShift |||
          (g * pf.GreenMax / 255) <<< pf.GreenShift |||
          (b * pf.BlueMax / 255) <<< pf.BlueShift)).bind (copyToRGBApixel pf) := by
        simp only [pixelRoundTrip, copyFromRGBApixel, hmr, hmg, hmb, hsr, hsg, hsb]
    _ = ((writePixelBytes pf ((r * pf.RedMax / 255) <<< pf.RedShift |||
          (g * pf.GreenMax / 255) <<< pf.GreenShift |||
          (b * pf.BlueMax / 255) <<< pf.BlueShift)).bind (readPixel pf)).bind
          (extractRGB8 pf) := (Option.bind_assoc _ _ _).symm
    _ = extractRGB8 pf (((r * pf.RedMax / 255) <<< pf.RedShift |||
          (g * pf.GreenMax / 255) <<< pf.GreenShift |||
          (b * pf.BlueMax / 255) <<< pf.BlueShift) % 2 ^ pf.BitsPerPixel) := by
        rw [hT]
        rfl
    _ = some (r * pf.RedMax / 255 * 255 / pf.RedMax,
        g * pf.GreenMax / 255 * 255 / pf.GreenMax,
        b * pf.BlueMax / 255 * 255 / pf.BlueMax) := by
        simp only [extractRGB8, if_neg hned]
        rw [extract_triple_red _ _ _ _ _ _ rw gw bw pf.BitsPerPixel pf.RedMax
            hrm hvr hvg hvb hfr hrg hrb,
          extract_triple_green _ _ _ _ _ _ rw gw bw pf.BitsPerPixel pf.GreenMax
            hgm hvr hvg hvb hfg hrg hgb,
          extract_triple_blue _ _ _ _ _ _ rw gw bw pf.BitsPerPixel pf.BlueMax
            hbm hvr hvg hvb hfb hrb hgb,
          hout_r, hout_g, hout_b]

/-- C1 (counterexample): the claim quantifies over every format accepted at
construction with nonzero channel maxes at most 0xFFFF, but
`NewPixelFormatImage` accepts a format whose three channel fields coincide
(all shifts 0), and there the round trip of sample (255, 0, 0) returns
(255, 255, 255): the green channel moves by 255, far more than its rounding
unit 1. -/
theorem pixel_round_trip_overlap_counterexample :
    (NewPixelFormatImage overlapPixelFormat unitRect).isOk = true ∧
    overlapPixelFormat.GreenMax = 255 ∧ 0 < overlapPixelFormat.GreenMax ∧
    pixelRoundTrip overlapPixelFormat 255 0 0 = some (255, 255, 255) ∧
    roundingUnit overlapPixelFormat.GreenMax = 1 ∧
    ¬ (255 - 0 ≤ roundingUnit overlapPixelFormat.GreenMax) := by
  refine ⟨by decide, by decide, by decide, ?_, by decide, by decide⟩
  decide

/-- C1 (amended): for every PixelFormat accepted at construction whose
channel maxes are nonzero of the form `2 ^ w - 1` (and at most 0xFFFF), and
whose three channel bit ranges fit inside `bitsPerPixel` and are pairwise
disjoint, unpacking the packed wire pixel (`CopyToRGBA` after
`CopyFromRGBA`) yields per channel a value that never exceeds the original
8-bit sample and differs from it by at most one rounding unit
(`⌈255 / max⌉`). -/
theorem pixel_round_trip_bounded (pf : PixelFormat) (rw gw bw : Nat)
    (hbpp : pf.BitsPerPixel = 8 ∨ pf.BitsPerPixel = 16 ∨ pf.BitsPerPixel = 32)
    (hrm : pf.RedMax = 2 ^ rw - 1) (hgm : pf.GreenMax = 2 ^ gw - 1)
    (hbm : pf.BlueMax = 2 ^ bw - 1)
    (hrw : 0 < rw) (hgw : 0 < gw) (hbw : 0 < bw)
    (hrmax : pf.RedMax ≤ 65535) (hgmax : pf.GreenMax ≤ 65535)
    (hbmax : pf.BlueMax ≤ 65535)
    (hfr : pf.RedShift + rw ≤ pf.BitsPerPixel)
    (hfg : pf.GreenShift + gw ≤ pf.BitsPerPixel)
    (hfb : pf.BlueShift + bw ≤ pf.BitsPerPixel)
    (hrg : pf.RedShift + rw ≤ pf.GreenShift ∨ pf.GreenShift + gw ≤ pf.RedShift)
    (hrb : pf.RedShift + rw ≤ pf.BlueShift ∨ pf.BlueShift + bw ≤ pf.RedShift)
    (hgb : pf.GreenShift + gw ≤ pf.BlueShift ∨ pf.BlueShift + bw ≤ pf.GreenShift)
    (r g b : Nat) (hr : r ≤ 255) (hg : g ≤ 255) (hb : b ≤ 255) :
    ∃ r2 g2 b2, pixelRoundTrip pf r g b = some (r2, g2, b2) ∧
      r2 ≤ r ∧ r ≤ r2 + roundingUnit pf.RedMax ∧
      g2 ≤ g ∧ g ≤ g2 + roundingUnit pf.GreenMax ∧
      b2 ≤ b ∧ b ≤ b2 + roundingUnit pf.BlueMax := by
  have h2rw : 2 ≤ 2 ^ rw := by
    calc (2 : Nat) = 2 ^ 1 := rfl
      _ ≤ 2 ^ rw := Nat.pow_le_pow_right (by norm_num) hrw
  have h2gw : 2 ≤ 2 ^ gw := by
    calc (2 : Nat) = 2 ^ 1 := rfl
      _ ≤ 2 ^ gw := Nat.pow_le_pow_right (by norm_num) hgw
  have h2bw : 2 ≤ 2 ^ bw := by
    calc (2 : Nat) = 2 ^ 1 := rfl
      _ ≤ 2 ^ bw := Nat.pow_le_pow_right (by norm_num) hbw
  have hrpos : 0 < pf.RedMax := by omega
  have hgpos : 0 < pf.GreenMax := by omega
  have hbpos : 0 < pf.BlueMax := by omega
  refine ⟨r * pf.RedMax / 255 * 255 / pf.RedMax,
    g * pf.GreenMax / 255 * 255 / pf.GreenMax,
    b * pf.BlueMax / 255 * 255 / pf.BlueMax,
    pixelRoundTrip_eq pf rw gw bw hbpp hrm hgm hbm hrw hgw hbw hrmax hgmax
      hbmax hfr hfg hfb hrg hrb hgb r g b hr hg hb,
    rescale_le r pf.RedMax hrpos, rescale_lower r pf.RedMax hrpos,
    rescale_le g pf.GreenMax hgpos, rescale_lower g pf.GreenMax hgpos,
    rescale_le b pf.BlueMax hbpos, rescale_lower b pf.BlueMax hbpos⟩

/-- C1 (witness): the amended round-trip theorem applied at the concrete
low-depth format of `image_test.go` and the sample (200, 100, 50). -/
theorem pixel_round_trip_bounded_witness :
    ∃ r2 g2 b2, pixelRoundTrip weirdPixelFormat 200 100 50 = some (r2, g2, b2) ∧
      r2 ≤ 200 ∧ 200 ≤ r2 + roundingUnit weirdPixelFormat.RedMax ∧
      g2 ≤ 100 ∧ 100 ≤ g2 + roundingUnit weirdPixelFormat.GreenMax ∧
      b2 ≤ 50 ∧ 50 ≤ b2 + roundingUnit weirdPixelFormat.BlueMax :=
  pixel_round_trip_bounded weirdPixelFormat 2 2 4 (by decide) (by decide)
    (by decide) (by decide) (by decide) (by decide) (by decide) (by decide)
    (by decide) (by decide) (by decide) (by decide) (by decide) (by decide)
    (by decide) (by decide) 200 100 50 (by decide) (by decide) (by decide)

/-- OR distributes over truncation to a bit width. -/
lemma lor_mod_two_pow (a b n : Nat) :
    (a % 2 ^ n) ||| (b % 2 ^ n) = (a ||| b) % 2 ^ n := by
  apply Nat.eq_of_testBit_eq
  intro i
  rw [Nat.testBit_lor, Nat.testBit_mod_two_pow, Nat.testBit_mod_two_pow,
    Nat.testBit_mod_two_pow, Nat.testBit_lor]
  by_cases hn : i < n <;> simp [hn]

/-- C2: the `CopyFromRGBA` packing computes, per channel,
`floor(sample * max / 255)` shifted by the channel shift and ORed into an
integer of `bitsPerPixel` width written in the byte order selected by
`format.bigEndian`, and the `CopyToRGBA` unpacking extracts
`(pixel >> shift) & max` and rescales it as `floor(extracted * 255 / max)` —
i.e. code and spec formulas agree on every 8-bit sample and byte string, for
every format with nonzero channel maxes at most 0xFFFF. -/
theorem pack_unpack_matches_spec (pf : PixelFormat) (r g b : Nat)
    (bytes : List Nat) (hr : r ≤ 255) (hg : g ≤ 255) (hb : b ≤ 255)
    (hrmax : pf.RedMax ≤ 65535) (hgmax : pf.GreenMax ≤ 65535)
    (hbmax : pf.BlueMax ≤ 65535)
    (hrpos : 0 < pf.RedMax) (hgpos : 0 < pf.GreenMax) (hbpos : 0 < pf.BlueMax) :
    copyFromRGBApixel pf r g b = specPackPixel pf r g b ∧
    copyToRGBApixel pf bytes = specUnpackPixel pf bytes := by
  constructor
  · have hmr : r * pf.RedMax % 2 ^ 32 = r * pf.RedMax :=
      Nat.mod_eq_of_lt (lt_of_le_of_lt (Nat.mul_le_mul hr hrmax) (by norm_num))
    have hmg : g * pf.GreenMax % 2 ^ 32 = g * pf.GreenMax :=
      Nat.mod_eq_of_lt (lt_of_le_of_lt (Nat.mul_le_mul hg hgmax) (by norm_num))
    have hmb : b * pf.BlueMax % 2 ^ 32 = b * pf.BlueMax :=
      Nat.mod_eq_of_lt (lt_of_le_of_lt (Nat.mul_le_mul hb hbmax) (by norm_num))
    have hT : (((r * pf.RedMax / 255) <<< pf.RedShift) % 2 ^ 32) |||
        (((g * pf.GreenMax / 255) <<< pf.GreenShift) % 2 ^ 32) |||
        (((b * pf.BlueMax / 255) <<< pf.BlueShift) % 2 ^ 32)
        = ((r * pf.RedMax / 255) <<< pf.RedShift |||
          (g * pf.GreenMax / 255) <<< pf.GreenShift |||
          (b * pf.BlueMax / 255) <<< pf.BlueShift) % 2 ^ 32 := by
      rw [lor_mod_two_pow, lor_mod_two_pow]
    simp only [copyFromRGBApixel, hmr, hmg, hmb, hT, specPackPixel,
      writePixelBytes]
    by_cases h8 : pf.BitsPerPixel = 8
    · simp only [h8, if_pos rfl]
      rw [Nat.mod_mod_of_dvd _ (by norm_num : (256 : Nat) ∣ 2 ^ 32)]
      norm_num
    · by_cases h16 : pf.BitsPerPixel = 16
      · rw [Nat.mod_mod_of_dvd _ (by norm_num : (2 ^ 16 : Nat) ∣ 2 ^ 32)]
        simp [h8, h16]
      · by_cases h32 : pf.BitsPerPixel = 32
        · simp [h8, h16, h32]
        · simp [h8, h16, h32]
  · cases hread : readPixel pf bytes with
    | none => simp [copyToRGBApixel, specUnpackPixel, hread]
    | some pixel =>
      have hne : ¬ (pf.RedMax = 0 ∨ pf.GreenMax = 0 ∨ pf.BlueMax = 0) := by omega
      simp only [copyToRGBApixel, specUnpackPixel, hread, Option.some_bind]
      simp only [extractRGB8, if_neg hne]
      rw [channel_out _ _ hrpos Nat.and_le_right hrmax,
        channel_out _ _ hgpos Nat.and_le_right hgmax,
        channel_out _ _ hbpos Nat.and_le_right hbmax]

/-- C2 (witness): code and spec formulas agree at the fixed server
32-bit format, sample (1, 2, 3), and byte string [4, 5, 6, 7]. -/
theorem pack_unpack_matches_spec_witness :
    copyFromRGBApixel stdPixelFormat 1 2 3 = specPackPixel stdPixelFormat 1 2 3 ∧
    copyToRGBApixel stdPixelFormat [4, 5, 6, 7] =
      specUnpackPixel stdPixelFormat [4, 5, 6, 7] :=
  pack_unpack_matches_spec stdPixelFormat 1 2 3 [4, 5, 6, 7] (by decide)
    (by decide) (by decide) (by decide) (by decide) (by decide) (by decide)
    (by decide) (by decide)

/-- Truncation is the identity on integers. -/
lemma qtrunc_intCast (n : Int) : qtrunc (n : ℚ) = n := by
  unfold qtrunc
  by_cases h : (0 : ℚ) ≤ (n : ℚ)
  · rw [if_pos h, Int.floor_intCast]
  · rw [if_neg h, ← Int.cast_neg, Int.floor_intCast, neg_neg]

/-- Truncation of zero. -/
lemma qtrunc_zero : qtrunc 0 = 0 := by
  rw [show (0 : ℚ) = ((0 : Int) : ℚ) by norm_num, qtrunc_intCast]

/-- Truncation commutes with negation (Go `int()` truncates toward zero). -/
lemma qtrunc_neg (q : ℚ) : qtrunc (-q) = - qtrunc q := by
  unfold qtrunc
  rcases lt_trichotomy q 0 with h | h | h
  · rw [if_pos (by linarith), if_neg (by linarith), neg_neg]
  · subst h
    norm_num
  · rw [if_neg (by linarith), if_pos (by linarith), neg_neg]

/-- Truncation moves a rational by less than one. -/
lemma qtrunc_sub_abs (q : ℚ) : |(qtrunc q : ℚ) - q| < 1 := by
  unfold qtrunc
  split
  · rw [abs_lt]
    constructor
    · linarith [Int.lt_floor_add_one q]
    · linarith [Int.floor_le q]
  · rw [abs_lt]
    push_cast
    constructor
    · linarith [Int.floor_le (-q)]
    · linarith [Int.lt_floor_add_one (-q)]

/-- C4: in crop-selecting mode, a release within distance 10 of the press
with the crop at its natural bound swaps `crop` and `lastCrop`, shifts
`position` by the truncated `(newMin - oldMin) × scale` per axis, and a
second click-release undoes the first exactly (crop, lastCrop and position
all return to their original values). -/
theorem crop_click_toggle (w : Window) (p1 q1 p2 q2 : Pt)
    (h1 : (q1.x - p1.x) ^ 2 + (q1.y - p1.y) ^ 2 < 100)
    (h2 : (q2.x - p2.x) ^ 2 + (q2.y - p2.y) ^ 2 < 100)
    (hnat : w.crop = w.imgBounds) :
    (cropSelectRelease p1 q1 w).crop = w.lastCrop ∧
    (cropSelectRelease p1 q1 w).lastCrop = w.crop ∧
    (cropSelectRelease p1 q1 w).pos.x =
      w.pos.x + qtrunc (((w.lastCrop.min.x - w.crop.min.x : Int) : ℚ) * w.scale) ∧
    (cropSelectRelease p1 q1 w).pos.y =
      w.pos.y + qtrunc (((w.lastCrop.min.y - w.crop.min.y : Int) : ℚ) * w.scale) ∧
    cropSelectRelease p2 q2 (cropSelectRelease p1 q1 w) = w := by
  obtain ⟨ib, cr, lc, sc, ⟨px, py⟩, mv⟩ := w
  simp only at hnat
  subst hnat
  have e1 : cropSelectRelease p1 q1 ⟨cr, cr, lc, sc, ⟨px, py⟩, mv⟩ =
      ⟨cr, lc, cr, sc,
        ⟨px + qtrunc (((lc.min.x - cr.min.x : Int) : ℚ) * sc),
         py + qtrunc (((lc.min.y - cr.min.y : Int) : ℚ) * sc)⟩, mv⟩ := by
    simp only [cropSelectRelease, if_pos h1]
    simp
  rw [e1]
  refine ⟨rfl, rfl, rfl, rfl, ?_⟩
  by_cases hL : cr = lc
  · subst hL
    simp only [cropSelectRelease, if_pos h2]
    simp [qtrunc_zero]
  · have e2 : cropSelectRelease p2 q2
        ⟨cr, lc, cr, sc,
          ⟨px + qtrunc (((lc.min.x - cr.min.x : Int) : ℚ) * sc),
           py + qtrunc (((lc.min.y - cr.min.y : Int) : ℚ) * sc)⟩, mv⟩ =
        ⟨cr, cr, lc, sc,
          ⟨px + qtrunc (((lc.min.x - cr.min.x : Int) : ℚ) * sc)
             + qtrunc (((cr.min.x - lc.min.x : Int) : ℚ) * sc),
           py + qtrunc (((lc.min.y - cr.min.y : Int) : ℚ) * sc)
             + qtrunc (((cr.min.y - lc.min.y : Int) : ℚ) * sc)⟩, mv⟩ := by
      simp only [cropSelectRelease, if_pos h2]
      rw [if_neg hL]
    rw [e2]
    have hx : qtrunc (((cr.min.x - lc.min.x : Int) : ℚ) * sc) =
        - qtrunc (((lc.min.x - cr.min.x : Int) : ℚ) * sc) := by
      rw [← qtrunc_neg]
      congr 1
      push_cast
      ring
    have hy : qtrunc (((cr.min.y - lc.min.y : Int) : ℚ) * sc) =
        - qtrunc (((lc.min.y - cr.min.y : Int) : ℚ) * sc) := by
      rw [← qtrunc_neg]
      congr 1
      push_cast
      ring
    simp only [Window.mk.injEq, Pt.mk.injEq]
    rw [hx, hy]
    simp only [true_and, and_true]
    constructor <;> omega

/-- C4 (witness): the click toggle applied twice at concrete click events
(press/release distances below 10) on a concrete window. -/
theorem crop_click_toggle_witness :
    (cropSelectRelease ⟨7, 7⟩ ⟨9, 8⟩ c4Window).crop = c4Window.lastCrop ∧
    (cropSelectRelease ⟨7, 7⟩ ⟨9, 8⟩ c4Window).lastCrop = c4Window.crop ∧
    (cropSelectRelease ⟨7, 7⟩ ⟨9, 8⟩ c4Window).pos.x = c4Window.pos.x +
      qtrunc (((c4Window.lastCrop.min.x - c4Window.crop.min.x : Int) : ℚ) *
        c4Window.scale) ∧
    (cropSelectRelease ⟨7, 7⟩ ⟨9, 8⟩ c4Window).pos.y = c4Window.pos.y +
      qtrunc (((c4Window.lastCrop.min.y - c4Window.crop.min.y : Int) : ℚ) *
        c4Window.scale) ∧
    cropSelectRelease ⟨3, 3⟩ ⟨4, 4⟩ (cropSelectRelease ⟨7, 7⟩ ⟨9, 8⟩ c4Window)
      = c4Window :=
  crop_click_toggle c4Window ⟨7, 7⟩ ⟨9, 8⟩ ⟨3, 3⟩ ⟨4, 4⟩ (by decide) (by decide)
    (by decide)

/-- One axis of the transform pair at scale 2: converting a screen
coordinate to a window coordinate (divide by the scale, add the crop
origin, truncate) and back (subtract the crop origin, multiply by the
scale, add the position, truncate) moves the point by at most one unit. -/
lemma roundtrip_axis (p s c : Int) :
    |qtrunc ((((qtrunc (((p - s : Int) : ℚ) / 2 + (c : ℚ))) - c : Int) : ℚ) * 2
      + (s : ℚ)) - p| ≤ 1 := by
  set x' := qtrunc (((p - s : Int) : ℚ) / 2 + (c : ℚ)) with hx
  have hint : ((((x' - c : Int) : ℚ)) * 2 + (s : ℚ))
      = (((x' - c) * 2 + s : Int) : ℚ) := by
    push_cast
    ring
  rw [hint, qtrunc_intCast]
  have he := qtrunc_sub_abs (((p - s : Int) : ℚ) / 2 + (c : ℚ))
  rw [← hx] at he
  have h2 : |((((x' - c) * 2 + s - p : Int)) : ℚ)| < 2 := by
    have hexp : ((((x' - c) * 2 + s - p : Int)) : ℚ)
        = 2 * ((x' : ℚ) - ((((p - s : Int) : ℚ)) / 2 + (c : ℚ))) := by
      push_cast
      ring
    rw [hexp, abs_mul, abs_two]
    linarith [he]
  have h3 : |(x' - c) * 2 + s - p| < 2 := by exact_mod_cast h2
  rw [abs_lt] at h3
  rw [abs_le]
  omega

/-- C5: for a window with scale 2.0, crop.min (10, 10), position (100, 100),
`WindowToScreen` after `ScreenToWindow` maps (150, 150) to exactly
(150, 150), and maps every point to within one unit per axis of itself. -/
theorem coordinate_round_trip (p : Pt) :
    c5Window.WindowToScreen (c5Window.ScreenToWindow ⟨150, 150⟩) = ⟨150, 150⟩ ∧
    |(c5Window.WindowToScreen (c5Window.ScreenToWindow p)).x - p.x| ≤ 1 ∧
    |(c5Window.WindowToScreen (c5Window.ScreenToWindow p)).y - p.y| ≤ 1 := by
  refine ⟨?_, ?_, ?_⟩
  · norm_num [c5Window, Window.WindowToScreen, Window.ScreenToWindow,
      Window.ScreenRect, imageRect, Rect.Dx, Rect.Dy, qtrunc, Pt.mk.injEq]
  · have hsr : c5Window.ScreenRect =
        { min := { x := 100, y := 100 }, max := { x := 500, y := 300 } } := by
      norm_num [c5Window, Window.ScreenRect, imageRect, Rect.Dx, Rect.Dy,
        qtrunc, Rect.mk.injEq, Pt.mk.injEq]
    simp only [Window.WindowToScreen, Window.ScreenToWindow]
    rw [hsr]
    simp only [c5Window]
    exact roundtrip_axis p.x 100 10
  · have hsr : c5Window.ScreenRect =
        { min := { x := 100, y := 100 }, max := { x := 500, y := 300 } } := by
      norm_num [c5Window, Window.ScreenRect, imageRect, Rect.Dx, Rect.Dy,
        qtrunc, Rect.mk.injEq, Pt.mk.injEq]
    simp only [Window.WindowToScreen, Window.ScreenToWindow]
    rw [hsr]
    simp only [c5Window]
    exact roundtrip_axis p.y 100 10

/-- The shift loop ignores a head below its start index. -/
lemma copyDown_cons (x : Window) (xs : List Window) (idx : Nat) :
    copyDown (x :: xs) (idx + 1) = x :: copyDown xs idx := by
  unfold copyDown
  cases h : xs.get? (idx + 1) with
  | none =>
    rw [show (x :: xs).get? (idx + 1 + 1) = xs.get? (idx + 1) from rfl, h]
  | some v =>
    rw [show (x :: xs).get? (idx + 1 + 1) = xs.get? (idx + 1) from rfl, h]
    rfl

/-- The whole shift loop ignores a head below its start index. -/
lemma copyLoop_cons (c : Nat) : ∀ (x : Window) (xs : List Window) (idx : Nat),
    copyLoop (x :: xs) (idx + 1) c = x :: copyLoop xs idx c := by
  induction c with
  | zero => intro x xs idx; rfl
  | succ c ih =>
    intro x xs idx
    show copyLoop (copyDown (x :: xs) (idx + 1)) (idx + 1 + 1) c
      = x :: copyLoop (copyDown xs idx) (idx + 1) c
    rw [copyDown_cons]
    exact ih x (copyDown xs idx) (idx + 1)

/-- Running the shift loop over a whole nonempty list and overwriting the
tail slot drops the head and appends the stored element. -/
lemma copyLoop_set (xs : List Window) : ∀ (x v : Window),
    (copyLoop (x :: xs) 0 xs.length).set xs.length v = xs ++ [v] := by
  induction xs with
  | nil => intro x v; rfl
  | cons y rest ih =>
    intro x v
    show (copyLoop (copyDown (x :: y :: rest) 0) 1 rest.length).set
      (rest.length + 1) v = y :: (rest ++ [v])
    have h1 : copyDown (x :: y :: rest) 0 = y :: y :: rest := rfl
    rw [h1, copyLoop_cons rest.length y (y :: rest) 0]
    show y :: (copyLoop (y :: rest) 0 rest.length).set rest.length v
      = y :: (rest ++ [v])
    rw [ih y v]

/-- `moveToFront` on a list with the target index in the tail. -/
lemma moveToFront_cons (x : Window) (xs : List Window) (i : Nat)
    (h : i < xs.length) :
    moveToFront (x :: xs) (i + 1) = x :: moveToFront xs i := by
  have hget : xs.get? i = some (xs.get ⟨i, h⟩) := List.get?_eq_get h
  unfold moveToFront
  rw [show (x :: xs).get? (i + 1) = xs.get? i from rfl, hget]
  have hlen : (x :: xs).length - 1 - (i + 1) = xs.length - 1 - i := by
    simp only [List.length_cons]
    omega
  have hlen2 : (x :: xs).length - 1 = (xs.length - 1) + 1 := by
    simp only [List.length_cons]
    omega
  rw [hlen, hlen2, copyLoop_cons (xs.length - 1 - i) x xs i]
  rfl

/-- `moveToFront l i` is: the prefix before `i`, the suffix after `i`, and
the element that was at `i` appended at the tail. -/
lemma moveToFront_eq : ∀ (l : List Window) (i : Nat) (h : i < l.length),
    moveToFront l i = (l.take i ++ l.drop (i + 1)) ++ [l.get ⟨i, h⟩] := by
  intro l
  induction l with
  | nil => intro i h; simp at h
  | cons x xs ih =>
    intro i h
    cases i with
    | zero =>
      show moveToFront (x :: xs) 0 = ([] ++ xs) ++ [x]
      unfold moveToFront
      rw [show (x :: xs).get? 0 = some x from rfl]
      show (copyLoop (x :: xs) 0 ((x :: xs).length - 1 - 0)).set
        ((x :: xs).length - 1) x = ([] ++ xs) ++ [x]
      have hc : (x :: xs).length - 1 - 0 = xs.length := by
        simp only [List.length_cons]
        omega
      have hc2 : (x :: xs).length - 1 = xs.length := by
        simp only [List.length_cons]
        omega
      rw [hc, hc2, copyLoop_set xs x x]
      simp
    | succ i =>
      have hi : i < xs.length := by
        simp only [List.length_cons] at h
        omega
      rw [moveToFront_cons x xs i hi, ih i hi]
      simp

/-- C6: after `moveToFront i` on a window list of length N with i < N, the
window previously at index i is at index N−1, every other window retains
its relative order (the first N−1 entries are exactly the original list
with entry i removed), and the result is a permutation of the original
list (no duplicate or missing entries), of the same length. -/
theorem move_to_front_spec (l : List Window) (i : Nat) (h : i < l.length) :
    moveToFront l i = (l.take i ++ l.drop (i + 1)) ++ [l.get ⟨i, h⟩] ∧
    (moveToFront l i).length = l.length ∧
    (moveToFront l i)[l.length - 1]? = some (l.get ⟨i, h⟩) ∧
    (moveToFront l i).take (l.length - 1) = l.take i ++ l.drop (i + 1) ∧
    (moveToFront l i).Perm l := by
  have heq := moveToFront_eq l i h
  have hlen : (l.take i ++ l.drop (i + 1)).length = l.length - 1 := by
    rw [List.length_append, List.length_take, List.length_drop]
    omega
  refine ⟨heq, ?_, ?_, ?_, ?_⟩
  · rw [heq, List.length_append, hlen]
    simp only [List.length_singleton]
    omega
  · rw [heq, ← hlen]
    exact List.getElem?_concat_length _ _
  · rw [heq]
    exact List.take_left' hlen
  · rw [heq]
    have h1 : l.take i ++ (l.get ⟨i, h⟩ :: l.drop (i + 1)) = l := by
      rw [show l.get ⟨i, h⟩ :: l.drop (i + 1) = l.drop i from
        List.getElem_cons_drop l i h]
      exact List.take_append_drop i l
    have h2 : ((l.take i ++ l.drop (i + 1)) ++ [l.get ⟨i, h⟩]).Perm
        (l.take i ++ (l.get ⟨i, h⟩ :: l.drop (i + 1))) := by
      rw [List.append_assoc]
      exact List.Perm.append_left _ (List.perm_append_singleton _ _)
    rw [h1] at h2
    exact h2

/-- C6 (witness): bring-to-front of the middle window of a concrete
3-window list. -/
theorem move_to_front_spec_witness :
    moveToFront zWindows 1 =
      (zWindows.take 1 ++ zWindows.drop 2) ++ [zWindows.get ⟨1, by decide⟩] ∧
    (moveToFront zWindows 1).length = zWindows.length ∧
    (moveToFront zWindows 1)[zWindows.length - 1]? =
      some (zWindows.get ⟨1, by decide⟩) ∧
    (moveToFront zWindows 1).take (zWindows.length - 1) =
      zWindows.take 1 ++ zWindows.drop 2 ∧
    (moveToFront zWindows 1).Perm zWindows :=
  move_to_front_spec zWindows 1 (by decide)

/-- The loading loop keeps exactly the successfully decoded entries, in
directory order. -/
lemma loadWindows_filterMap (results : List (Except String Rect)) :
    loadWindows results = (results.filterMap Except.toOption).map newWindow := by
  induction results with
  | nil => rfl
  | cons r rest ih =>
    cases r with
    | error e => simp [loadWindows, Except.toOption, ih]
    | ok v => simp [loadWindows, Except.toOption, ih]

/-- C8: whatever mix of decode successes and failures the working directory
produces, `NewUI` always returns a ui; each failing file is skipped, the
remaining entries still load in order, and zero windows (all files failing)
is a valid, non-fatal outcome — the window list is exactly the successful
decodes in directory order. -/
theorem newUI_skips_failing_images (results : List (Except String Rect)) :
    NewUI results = { Title := "freethumb"
                      Width := 1200
                      Height := 720
                      windows := (results.filterMap Except.toOption).map newWindow
                      pendingCrop := zeroRect } := by
  unfold NewUI
  rw [loadWindows_filterMap]

/-- C3 (counterexample): a SetPixelFormat message carrying BitsPerPixel = 7
is accepted at format-set time — the session handler returns success and
stores the invalid format — while `NewPixelFormatImage` (first called at
the next render) rejects that same format.  This refutes the claim that a
format arriving via SetPixelFormat is rejected at format-set time. -/
theorem set_pixel_format_accepts_invalid :
    handleSetPixelFormat { pixelFormat := stdPixelFormat }
      badSetPixelFormatBytes = .ok { pixelFormat := badPixelFormat } ∧
    badPixelFormat.BitsPerPixel = 7 ∧
    (NewPixelFormatImage badPixelFormat unitRect).isOk = false := by
  refine ⟨rfl, by decide, by decide⟩

/-- C3 (amended): `NewPixelFormatImage` returns an error for every invalid
format (`bitsPerPixel` outside 8/16/32, or a channel max above 0xFFFF), but
a format arriving via SetPixelFormat is stored by the session loop without
any validation — the invalid format is only discovered when the next
framebuffer render constructs a `PixelFormatImage`. -/
theorem invalid_format_rejected_at_construction_only
    (pf : PixelFormat) (bounds : Rect) (st : Session) (bytes : List Nat)
    (pf2 : PixelFormat)
    (hbad : (pf.BitsPerPixel ≠ 8 ∧ pf.BitsPerPixel ≠ 16 ∧ pf.BitsPerPixel ≠ 32)
      ∨ 65535 < pf.RedMax ∨ 65535 < pf.GreenMax ∨ 65535 < pf.BlueMax)
    (hread : setPixelFormatMessageRead bytes true = .ok pf2) :
    (NewPixelFormatImage pf bounds).isOk = false ∧
    handleSetPixelFormat st bytes = .ok { st with pixelFormat := pf2 } := by
  constructor
  · unfold NewPixelFormatImage
    by_cases hc1 : pf.RedMax > 0xffff ∨ pf.GreenMax > 0xffff ∨ pf.BlueMax > 0xffff
    · rw [if_pos hc1]
      rfl
    · have hc2 : pf.BitsPerPixel ≠ 32 ∧ pf.BitsPerPixel ≠ 16 ∧
          pf.BitsPerPixel ≠ 8 := by
        rcases hbad with ⟨h8, h16, h32⟩ | h | h | h
        · exact ⟨h32, h16, h8⟩
        all_goals omega
      rw [if_neg hc1, if_pos hc2]
      rfl
  · unfold handleSetPixelFormat
    rw [hread]

/-- C3 (witness): the amended theorem at the BitsPerPixel = 7 format and
its wire message. -/
theorem invalid_format_rejected_at_construction_only_witness :
    (NewPixelFormatImage badPixelFormat unitRect).isOk = false ∧
    handleSetPixelFormat { pixelFormat := stdPixelFormat }
      badSetPixelFormatBytes =
      .ok { pixelFormat := badPixelFormat } :=
  invalid_format_rejected_at_construction_only badPixelFormat unitRect
    { pixelFormat := stdPixelFormat } badSetPixelFormatBytes badPixelFormat
    (by decide) rfl

/-- C7: the first write of the server is the exact 12-byte string
"RFB 003.003\n", and a client reply announcing any major/minor other than
3.3 terminates the connection with an error with nothing further written
(the trace holds only the single ProtocolVersion write). -/
theorem protocol_version_33_enforced (reply : List Nat) (maj minr : Nat)
    (hparse : parseProtocolVersion reply = .ok (maj, minr))
    (hne : ¬ (maj = 3 ∧ minr = 3)) :
    protocolVersionWrite 3 3 = .ok rfb33Bytes ∧
    rfb33Bytes = "RFB 003.003\n".toList.map Char.toNat ∧
    rfb33Bytes.length = 12 ∧
    rfbServeStart reply = ([rfb33Bytes], .error "only version 3.3 is supported") := by
  have hpv : protocolVersionWrite 3 3 = .ok rfb33Bytes := rfl
  refine ⟨hpv, by decide, by decide, ?_⟩
  unfold rfbServeStart
  rw [hpv, hparse]
  show (if maj ≠ 3 ∨ minr ≠ 3 then
      ([rfb33Bytes], Except.error "only version 3.3 is supported")
    else ([rfb33Bytes, authSchemeVNCBytes, authChallengeBytes], Except.ok ()))
    = ([rfb33Bytes], Except.error "only version 3.3 is supported")
  rw [if_pos (show maj ≠ 3 ∨ minr ≠ 3 by omega)]

/-- C7 (witness): a client announcing "RFB 003.008\n" is parsed as version
3.8 and rejected right after the single server ProtocolVersion write. -/
theorem protocol_version_33_enforced_witness :
    protocolVersionWrite 3 3 = .ok rfb33Bytes ∧
    rfb33Bytes = "RFB 003.003\n".toList.map Char.toNat ∧
    rfb33Bytes.length = 12 ∧
    rfbServeStart [82, 70, 66, 32, 48, 48, 51, 46, 48, 48, 56, 10] =
      ([rfb33Bytes], .error "only version 3.3 is supported") :=
  protocol_version_33_enforced [82, 70, 66, 32, 48, 48, 51, 46, 48, 48, 56, 10]
    3 8 rfl (by decide)

/-- C10: `NewPixelFormatImage` accepts a format whose RedMax is zero, and
the wire decoder `PixelFormat.Read` produces it without complaint, yet
every unpacking path divides by each channel max unguarded — on that format
`PixelFormatColor.RGBA` and the `CopyToRGBA` pixel body panic (`none`);
they are total exactly under the precondition that all three channel maxes
are nonzero, which no constructor or decoder enforces. -/
theorem zero_channel_max_unguarded (pf : PixelFormat) (pixel : Nat)
    (hr : pf.RedMax ≠ 0) (hg : pf.GreenMax ≠ 0) (hb : pf.BlueMax ≠ 0) :
    (NewPixelFormatImage zeroMaxPixelFormat unitRect).isOk = true ∧
    pixelFormatRead zeroMaxFormatBytes true = some zeroMaxPixelFormat ∧
    PixelFormatColorRGBA zeroMaxPixelFormat 0 = none ∧
    copyToRGBApixel zeroMaxPixelFormat [0, 0, 0, 0] = none ∧
    (PixelFormatColorRGBA pf pixel).isSome = true ∧
    (extractRGB8 pf pixel).isSome = true := by
  refine ⟨by decide, by decide, rfl, rfl, ?_, ?_⟩
  · unfold PixelFormatColorRGBA
    rw [if_neg (by omega)]
    rfl
  · unfold extractRGB8
    rw [if_neg (by omega)]
    rfl

/-- C10 (witness): the unpacking paths are total at the standard server
format and an arbitrary concrete pixel. -/
theorem zero_channel_max_unguarded_witness :
    (NewPixelFormatImage zeroMaxPixelFormat unitRect).isOk = true ∧
    pixelFormatRead zeroMaxFormatBytes true = some zeroMaxPixelFormat ∧
    PixelFormatColorRGBA zeroMaxPixelFormat 0 = none ∧
    copyToRGBApixel zeroMaxPixelFormat [0, 0, 0, 0] = none ∧
    (PixelFormatColorRGBA stdPixelFormat 123456789).isSome = true ∧
    (extractRGB8 stdPixelFormat 123456789).isSome = true :=
  zero_channel_max_unguarded stdPixelFormat 123456789 (by decide) (by decide)
    (by decide)

/-- C9: for every format accepted by `NewPixelFormatImage` and every
well-formed bounds rectangle, the allocated `Pix` buffer has length
`bytesPerPixel × Dx × Dy`; for every point (x, y) inside the bounds the
index computed by `idx` is nonnegative and `idx + bytesPerPixel` stays
within the buffer (so `Set` and `At` never access `Pix` out of bounds); and
every stride-aligned loop offset below the length leaves room for a whole
pixel (so the `CopyToRGBA` / `CopyFromRGBA` loops never do either). -/
theorem pix_buffer_safe (pf : PixelFormat) (bounds : Rect)
    (img : PixelFormatImage) (x y k : Int)
    (hok : NewPixelFormatImage pf bounds = .ok img)
    (hwx : bounds.min.x ≤ bounds.max.x) (hwy : bounds.min.y ≤ bounds.max.y)
    (hx1 : bounds.min.x ≤ x) (hx2 : x < bounds.max.x)
    (hy1 : bounds.min.y ≤ y) (hy2 : y < bounds.max.y)
    (hk0 : 0 ≤ k) (hklt : k * img.bytesPerPixel < (img.Pix.length : Int)) :
    (img.Pix.length : Int) = img.bytesPerPixel * bounds.Dx * bounds.Dy ∧
    0 ≤ img.idx x y ∧
    img.idx x y + img.bytesPerPixel ≤ (img.Pix.length : Int) ∧
    k * img.bytesPerPixel + img.bytesPerPixel ≤ (img.Pix.length : Int) := by
  clear hk0
  unfold NewPixelFormatImage at hok
  split at hok
  · exact absurd hok (by simp)
  · split at hok
    · exact absurd hok (by simp)
    · rename_i hc1 hc2
      injection hok with hok
      subst hok
      have hbpp : pf.BitsPerPixel = 32 ∨ pf.BitsPerPixel = 16 ∨
          pf.BitsPerPixel = 8 := by omega
      have hq : 1 ≤ pf.BitsPerPixel / 8 := by omega
      simp only [PixelFormatImage.bytesPerPixel, PixelFormatImage.idx,
        List.length_replicate] at *
      set bpv : Int := ((pf.BitsPerPixel / 8 : Nat) : Int) with hbpv
      have hbpv0 : 0 < bpv := by
        rw [hbpv]
        exact_mod_cast hq
      have hDx : 0 ≤ bounds.Dx := by
        simp only [Rect.Dx]
        omega
      have hDy : 0 ≤ bounds.Dy := by
        simp only [Rect.Dy]
        omega
      have hlen : ((bpv * bounds.Dx * bounds.Dy).toNat : Int)
          = bpv * bounds.Dx * bounds.Dy := by
        apply Int.toNat_of_nonneg
        exact mul_nonneg (mul_nonneg (le_of_lt hbpv0) hDx) hDy
      rw [hlen] at hklt ⊢
      refine ⟨rfl, ?_, ?_, ?_⟩
      · apply add_nonneg
        · exact mul_nonneg (mul_nonneg (le_of_lt hbpv0) hDx) (by omega)
        · exact mul_nonneg (le_of_lt hbpv0) (by omega)
      · have h1 : bpv * (x - bounds.min.x) + bpv ≤ bpv * bounds.Dx := by
          have hx3 : (x - bounds.min.x) + 1 ≤ bounds.Dx := by
            simp only [Rect.Dx]
            omega
          calc bpv * (x - bounds.min.x) + bpv
              = bpv * ((x - bounds.min.x) + 1) := by ring
            _ ≤ bpv * bounds.Dx :=
                mul_le_mul_of_nonneg_left hx3 (le_of_lt hbpv0)
        have h2 : (bpv * bounds.Dx) * (y - bounds.min.y) + bpv * bounds.Dx
            ≤ (bpv * bounds.Dx) * bounds.Dy := by
          have hy3 : (y - bounds.min.y) + 1 ≤ bounds.Dy := by
            simp only [Rect.Dy]
            omega
          calc (bpv * bounds.Dx) * (y - bounds.min.y) + bpv * bounds.Dx
              = (bpv * bounds.Dx) * ((y - bounds.min.y) + 1) := by ring
            _ ≤ (bpv * bounds.Dx) * bounds.Dy :=
                mul_le_mul_of_nonneg_left hy3
                  (mul_nonneg (le_of_lt hbpv0) hDx)
        calc (bpv * bounds.Dx) * (y - bounds.min.y) + bpv * (x - bounds.min.x)
              + bpv
            ≤ (bpv * bounds.Dx) * (y - bounds.min.y) + bpv * bounds.Dx := by
              linarith
          _ ≤ (bpv * bounds.Dx) * bounds.Dy := h2
          _ = bpv * bounds.Dx * bounds.Dy := by ring
      · have hk1 : k + 1 ≤ bounds.Dx * bounds.Dy := by
          by_contra hcon
          push_neg at hcon
          have hdk : bounds.Dx * bounds.Dy ≤ k := by omega
          have h3 : (bounds.Dx * bounds.Dy) * bpv ≤ k * bpv :=
            mul_le_mul_of_nonneg_right hdk (le_of_lt hbpv0)
          have h4 : bpv * bounds.Dx * bounds.Dy
              = (bounds.Dx * bounds.Dy) * bpv := by ring
          omega
        calc k * bpv + bpv = (k + 1) * bpv := by ring
          _ ≤ (bounds.Dx * bounds.Dy) * bpv :=
              mul_le_mul_of_nonneg_right hk1 (le_of_lt hbpv0)
          _ = bpv * bounds.Dx * bounds.Dy := by ring

/-- C9 (witness): buffer safety at the standard server 32-bit format on a
2×2 rectangle, point (1, 1), loop index 2. -/
theorem pix_buffer_safe_witness :
    (img22.Pix.length : Int) = img22.bytesPerPixel * rect22.Dx * rect22.Dy ∧
    0 ≤ img22.idx 1 1 ∧
    img22.idx 1 1 + img22.bytesPerPixel ≤ (img22.Pix.length : Int) ∧
    2 * img22.bytesPerPixel + img22.bytesPerPixel ≤ (img22.Pix.length : Int) :=
  pix_buffer_safe stdPixelFormat rect22 img22 1 1 2 rfl (by decide) (by decide)
    (by decide) (by decide) (by decide) (by decide) (by decide) (by decide)
